import Mathlib

/-!
Verification of the frozencounter library (an immutable wrapper around the
standard counting container).

The embedding models a CPython dict as an insertion-ordered association list
from keys to signed integer counts, and translates the methods of
FrozenCounter together with the collections.Counter operations they delegate
to (update, subtract, the four multiset operators, unary plus and minus,
most_common, equality, hashing over the frozen set of entries).
-/

namespace FrozenCounterSpec

variable {K : Type} [DecidableEq K]

/-- Insertion-ordered entry list of a CPython dict mapping keys to int counts. -/
abbrev Entries (K : Type) := List (K × Int)

/-- First-match lookup of a key, modelling dict key search. -/
def lookup? : Entries K → K → Option Int
  | [], _ => none
  | (k, v) :: rest, k0 => if k = k0 then some v else lookup? rest k0

/-- Counter item access: missing keys read as count 0 (Counter.__missing__). -/
def getCount (c : Entries K) (k : K) : Int := (lookup? c k).getD 0

/-- Key membership test (dict.__contains__). -/
def member (c : Entries K) (k : K) : Bool := (lookup? c k).isSome

/-- Dict item assignment: replace the value at an existing key in place,
append a fresh key at the end (CPython insertion order). -/
def setEntry : Entries K → K → Int → Entries K
  | [], k, v => [(k, v)]
  | (k1, v1) :: rest, k, v =>
      if k1 = k then (k1, v) :: rest else (k1, v1) :: setEntry rest k v

/-- A genuine dict has no duplicate keys. -/
abbrev nodupKeys (c : Entries K) : Prop := (c.map Prod.fst).Nodup

theorem lookup?_setEntry (c : Entries K) (k k0 : K) (v : Int) :
    lookup? (setEntry c k v) k0 = if k = k0 then some v else lookup? c k0 := by
  induction c with
  | nil => simp [setEntry, lookup?]
  | cons kv rest ih =>
    obtain ⟨k1, v1⟩ := kv
    by_cases h1 : k1 = k
    · subst h1
      by_cases h0 : k1 = k0 <;> simp [setEntry, lookup?, h0]
    · by_cases h0 : k1 = k0
      · have hk : ¬ k = k0 := by rw [← h0]; exact fun h => h1 h.symm
        have hk2 : ¬ k0 = k := fun h => hk h.symm
        simp [setEntry, lookup?, h1, h0, hk, hk2]
      · simp [setEntry, lookup?, h1, h0, ih]

theorem member_eq_false_iff (c : Entries K) (k : K) :
    member c k = false ↔ lookup? c k = none := by
  unfold member
  cases lookup? c k <;> simp

theorem lookup?_eq_none_iff (c : Entries K) (k : K) :
    lookup? c k = none ↔ k ∉ c.map Prod.fst := by
  induction c with
  | nil => simp [lookup?]
  | cons kv rest ih =>
    obtain ⟨k1, v1⟩ := kv
    by_cases h1 : k1 = k
    · subst h1; simp [lookup?]
    · have h1s : ¬ k = k1 := fun h => h1 h.symm
      simp [lookup?, h1, h1s, ih]

theorem mem_of_lookup? {c : Entries K} {k : K} {v : Int}
    (h : lookup? c k = some v) : (k, v) ∈ c := by
  induction c with
  | nil => simp [lookup?] at h
  | cons kv rest ih =>
    obtain ⟨k1, v1⟩ := kv
    by_cases h1 : k1 = k
    · subst h1
      simp [lookup?] at h
      simp [h]
    · simp [lookup?, h1] at h
      exact List.mem_cons_of_mem _ (ih h)

theorem lookup?_of_mem {c : Entries K} {k : K} {v : Int}
    (hnd : nodupKeys c) (h : (k, v) ∈ c) : lookup? c k = some v := by
  induction c with
  | nil => simp at h
  | cons kv rest ih =>
    obtain ⟨k1, v1⟩ := kv
    rcases List.mem_cons.mp h with h | h
    · obtain ⟨rfl, rfl⟩ := Prod.mk.injEq .. ▸ h
      simp [lookup?]
    · have hk1 : k1 ≠ k := by
        intro hEq
        subst hEq
        have : k1 ∈ rest.map Prod.fst :=
          List.mem_map.mpr ⟨(k1, v), h, rfl⟩
        exact (List.nodup_cons.mp hnd).1 this
      have hrest : nodupKeys rest := (List.nodup_cons.mp hnd).2
      simp [lookup?, hk1, ih hrest h]

theorem setEntry_of_not_member {c : Entries K} {k : K} (v : Int)
    (h : lookup? c k = none) : setEntry c k v = c ++ [(k, v)] := by
  induction c with
  | nil => simp [setEntry]
  | cons kv rest ih =>
    obtain ⟨k1, v1⟩ := kv
    by_cases h1 : k1 = k
    · subst h1; simp [lookup?] at h
    · simp [lookup?, h1] at h
      simp [setEntry, h1, ih h]

theorem keys_setEntry (c : Entries K) (k : K) (v : Int) :
    (setEntry c k v).map Prod.fst =
      if member c k then c.map Prod.fst else c.map Prod.fst ++ [k] := by
  induction c with
  | nil => simp [setEntry, member, lookup?]
  | cons kv rest ih =>
    obtain ⟨k1, v1⟩ := kv
    by_cases h1 : k1 = k
    · subst h1; simp [setEntry, member, lookup?]
    · simp only [setEntry, if_neg h1, List.map_cons, member, lookup?, h1, ite_false]
      rw [ih]
      unfold member
      by_cases hm : (lookup? rest k).isSome <;> simp [hm]

theorem nodupKeys_setEntry {c : Entries K} (k : K) (v : Int)
    (h : nodupKeys c) : nodupKeys (setEntry c k v) := by
  unfold nodupKeys
  rw [keys_setEntry]
  by_cases hm : member c k
  · simpa [hm] using h
  · have hk : k ∉ c.map Prod.fst := by
      rw [← lookup?_eq_none_iff, ← member_eq_false_iff]
      simpa using hm
    simp only [hm, ite_false]
    simp [List.nodup_append, h, hk]

theorem lookup?_append (a b : Entries K) (k : K) :
    lookup? (a ++ b) k =
      match lookup? a k with
      | some v => some v
      | none => lookup? b k := by
  induction a with
  | nil => simp [lookup?]
  | cons kv rest ih =>
    obtain ⟨k1, v1⟩ := kv
    by_cases h1 : k1 = k <;> simp [lookup?, h1, ih]

theorem mem_setEntry {c : Entries K} {k : K} {v : Int} {kv : K × Int}
    (h : kv ∈ setEntry c k v) : kv = (k, v) ∨ kv ∈ c := by
  induction c with
  | nil => simpa [setEntry] using h
  | cons kv1 rest ih =>
    obtain ⟨k1, v1⟩ := kv1
    by_cases h1 : k1 = k
    · simp only [setEntry, if_pos h1, List.mem_cons] at h
      rcases h with h2 | h2
      · left; rw [h2, h1]
      · right; exact List.mem_cons_of_mem _ h2
    · simp only [setEntry, if_neg h1, List.mem_cons] at h
      rcases h with h2 | h2
      · right; exact List.mem_cons.mpr (Or.inl h2)
      · rcases ih h2 with h3 | h3
        · exact Or.inl h3
        · exact Or.inr (List.mem_cons_of_mem _ h3)

/-- A loop of the shape seen throughout the multiset operators of Counter:
for each entry of l in order, when the guard p holds, assign the value g to
that key in the result dict. -/
def condSetFold (p : K × Int → Prop) [DecidablePred p] (g : K × Int → Int)
    (acc : Entries K) (l : Entries K) : Entries K :=
  l.foldl (fun a kv => if p kv then setEntry a kv.1 (g kv) else a) acc

theorem condSetFold_nil (p : K × Int → Prop) [DecidablePred p] (g : K × Int → Int)
    (acc : Entries K) : condSetFold p g acc [] = acc := rfl

theorem condSetFold_cons (p : K × Int → Prop) [DecidablePred p] (g : K × Int → Int)
    (acc : Entries K) (kv : K × Int) (l : Entries K) :
    condSetFold p g acc (kv :: l)
      = condSetFold p g (if p kv then setEntry acc kv.1 (g kv) else acc) l := rfl

omit [DecidableEq K] in
theorem nodupKeys_cons {kv : K × Int} {rest : Entries K} :
    nodupKeys (kv :: rest) ↔ kv.1 ∉ rest.map Prod.fst ∧ nodupKeys rest := by
  show (List.map Prod.fst (kv :: rest)).Nodup ↔ _
  rw [List.map_cons, List.nodup_cons]

theorem condSetFold_lookup (p : K × Int → Prop) [DecidablePred p] (g : K × Int → Int)
    (l : Entries K) (k : K) : ∀ acc : Entries K, nodupKeys l →
    lookup? (condSetFold p g acc l) k =
      match lookup? l k with
      | some v => if p (k, v) then some (g (k, v)) else lookup? acc k
      | none => lookup? acc k := by
  induction l with
  | nil => intro acc _; simp [condSetFold_nil, lookup?]
  | cons kv rest ih =>
    intro acc hl
    obtain ⟨k1, v1⟩ := kv
    rw [nodupKeys_cons] at hl
    obtain ⟨hnd1, hndr⟩ := hl
    rw [condSetFold_cons]
    by_cases hk : k1 = k
    · subst hk
      have hrest : lookup? rest k1 = none := (lookup?_eq_none_iff _ _).mpr hnd1
      rw [ih _ hndr]
      by_cases hp : p (k1, v1)
      · simp [lookup?, hrest, hp, lookup?_setEntry]
      · simp [lookup?, hrest, hp]
    · have hcons : lookup? ((k1, v1) :: rest) k = lookup? rest k := by
        simp [lookup?, hk]
      rw [ih _ hndr, hcons]
      have hacc : lookup? (if p (k1, v1) then setEntry acc k1 (g (k1, v1)) else acc) k
          = lookup? acc k := by
        by_cases hp : p (k1, v1) <;> simp [hp, lookup?_setEntry, hk]
      cases hrk : lookup? rest k with
      | some v => simp [hacc]
      | none => simp [hacc]

theorem condSetFold_forall (p : K × Int → Prop) [DecidablePred p] (g : K × Int → Int)
    (Q : K × Int → Prop) (l : Entries K) :
    ∀ acc : Entries K, (∀ kv ∈ acc, Q kv) → (∀ kv ∈ l, p kv → Q (kv.1, g kv)) →
    ∀ kv ∈ condSetFold p g acc l, Q kv := by
  induction l with
  | nil =>
    intro acc hacc _
    simpa [condSetFold_nil] using hacc
  | cons kv0 rest ih =>
    intro acc hacc hl
    rw [condSetFold_cons]
    apply ih
    · intro kv hkv
      by_cases hp : p kv0
      · rw [if_pos hp] at hkv
        rcases mem_setEntry hkv with h | h
        · subst h
          exact hl kv0 (by simp) hp
        · exact hacc kv h
      · rw [if_neg hp] at hkv
        exact hacc kv hkv
    · intro kv hkv hp
      exact hl kv (List.mem_cons_of_mem _ hkv) hp

theorem nodupKeys_condSetFold (p : K × Int → Prop) [DecidablePred p] (g : K × Int → Int)
    (l : Entries K) : ∀ acc : Entries K, nodupKeys acc →
    nodupKeys (condSetFold p g acc l) := by
  induction l with
  | nil => intro acc h; simpa [condSetFold_nil] using h
  | cons kv rest ih =>
    intro acc hacc
    rw [condSetFold_cons]
    apply ih
    by_cases hp : p kv
    · rw [if_pos hp]; exact nodupKeys_setEntry _ _ hacc
    · rwa [if_neg hp]

/-- The iterable branch of Counter.update: count occurrences, incrementing
the current count of each element seen (collections._count_elements). -/
def countElements (self : Entries K) (xs : List K) : Entries K :=
  xs.foldl (fun acc x => setEntry acc x (getCount acc x + 1)) self

/-- The mapping branch of Counter.update: pointwise additive merge when self
is nonempty, plain dict update (replacement) into an empty self. -/
def counterUpdateMap (self : Entries K) (src : Entries K) : Entries K :=
  if self.isEmpty then
    src.foldl (fun acc kv => setEntry acc kv.1 kv.2) self
  else
    src.foldl (fun acc kv => setEntry acc kv.1 (kv.2 + getCount acc kv.1)) self

/-- One construction or update source: an iterable of elements, or a mapping
from elements to counts (a dict, another Counter, or keyword pairs). -/
inductive Source (K : Type) where
  | iter (xs : List K)
  | map (m : Entries K)

/-- A source is valid when its mapping form is a genuine dict, that is, has
no duplicate keys. -/
def Source.valid : Source K → Prop
  | .iter _ => True
  | .map m => nodupKeys m

instance : (s : Source K) → Decidable s.valid
  | .iter _ => inferInstanceAs (Decidable True)
  | .map m => inferInstanceAs (Decidable (nodupKeys m))

/-- Counter.update restricted to one source. -/
def counterUpdate (self : Entries K) : Source K → Entries K
  | .iter xs => countElements self xs
  | .map m => counterUpdateMap self m

/-- Counter.subtract restricted to one source. -/
def counterSubtract (self : Entries K) : Source K → Entries K
  | .iter xs => xs.foldl (fun acc x => setEntry acc x (getCount acc x - 1)) self
  | .map m => m.foldl (fun acc kv => setEntry acc kv.1 (getCount acc kv.1 - kv.2)) self

/-- Counter construction: update an empty counter with each given source in
turn (Counter.__init__ delegates to update). -/
def counterInit (srcs : List (Source K)) : Entries K := srcs.foldl counterUpdate []

/-- Counter built from one mapping, as done when a Counter result is passed
to the FrozenCounter constructor. -/
def counterOfMap (m : Entries K) : Entries K := counterUpdateMap [] m

/-- Counter.__add__ body: add counts, keep strictly positive results, then
keep positive counts of keys only present in the right operand. -/
def counterAdd (self other : Entries K) : Entries K :=
  let result := condSetFold (fun kv => 0 < kv.2 + getCount other kv.1)
      (fun kv => kv.2 + getCount other kv.1) [] self
  condSetFold (fun kv => member self kv.1 = false ∧ 0 < kv.2) (fun kv => kv.2) result other

/-- Counter.__sub__ body: subtract counts, keep strictly positive results,
then negate the strictly negative counts of keys only in the right operand. -/
def counterSub (self other : Entries K) : Entries K :=
  let result := condSetFold (fun kv => 0 < kv.2 - getCount other kv.1)
      (fun kv => kv.2 - getCount other kv.1) [] self
  condSetFold (fun kv => member self kv.1 = false ∧ kv.2 < 0) (fun kv => 0 - kv.2) result other

/-- Counter.__or__ body: keep the larger of the two counts when strictly
positive, then positive counts of keys only in the right operand. -/
def counterOr (self other : Entries K) : Entries K :=
  let result := condSetFold
      (fun kv => 0 < (if kv.2 < getCount other kv.1 then getCount other kv.1 else kv.2))
      (fun kv => if kv.2 < getCount other kv.1 then getCount other kv.1 else kv.2) [] self
  condSetFold (fun kv => member self kv.1 = false ∧ 0 < kv.2) (fun kv => kv.2) result other

/-- Counter.__and__ body: keep the smaller of the two counts when strictly
positive; keys missing from the left operand never enter the result. -/
def counterAnd (self other : Entries K) : Entries K :=
  condSetFold
      (fun kv => 0 < (if kv.2 < getCount other kv.1 then kv.2 else getCount other kv.1))
      (fun kv => if kv.2 < getCount other kv.1 then kv.2 else getCount other kv.1) [] self

/-- Counter.__pos__ body: keep the strictly positive counts. -/
def counterPos (self : Entries K) : Entries K :=
  condSetFold (fun kv => 0 < kv.2) (fun kv => kv.2) [] self

/-- Counter.__neg__ body: keep the strictly negative counts, negated. -/
def counterNeg (self : Entries K) : Entries K :=
  condSetFold (fun kv => kv.2 < 0) (fun kv => 0 - kv.2) [] self

/-- Stable insertion into a list sorted by descending count: the new element
goes in front of the first entry whose count does not exceed it. -/
def insertByCount (x : K × Int) : List (K × Int) → List (K × Int)
  | [] => [x]
  | y :: ys => if x.2 < y.2 then y :: insertByCount x ys else x :: y :: ys

/-- The stable descending sort by count performed by sorted with an
item-count key and reverse order. -/
def sortByCountDesc : List (K × Int) → List (K × Int)
  | [] => []
  | x :: xs => insertByCount x (sortByCountDesc xs)

/-- Counter.most_common: full stable descending sort when n is omitted,
otherwise the heapq.nlargest selection, equivalent to the first n entries of
that sort (empty for n at most 0). -/
def counterMostCommon (self : Entries K) : Option Int → List (K × Int)
  | none => sortByCountDesc self
  | some n => if n ≤ 0 then [] else (sortByCountDesc self).take n.toNat

/-- Number of occurrences of a key in an iterable source. -/
def occCount (k : K) : List K → Int
  | [] => 0
  | x :: xs => (if x = k then 1 else 0) + occCount k xs

/-- Total count a mapping source carries for a key. -/
def sumCount (k : K) : Entries K → Int
  | [] => 0
  | kv :: rest => (if kv.1 = k then kv.2 else 0) + sumCount k rest

/-- Count a single source implies for a key. -/
def srcCount : Source K → K → Int
  | .iter xs, k => occCount k xs
  | .map m, k => sumCount k m

theorem getCount_setEntry (c : Entries K) (k k0 : K) (v : Int) :
    getCount (setEntry c k v) k0 = if k = k0 then v else getCount c k0 := by
  unfold getCount
  rw [lookup?_setEntry]
  by_cases h : k = k0 <;> simp [h]

theorem getCount_countElements (xs : List K) : ∀ (self : Entries K) (k : K),
    getCount (countElements self xs) k = getCount self k + occCount k xs := by
  induction xs with
  | nil => intro self k; simp [countElements, occCount]
  | cons x rest ih =>
    intro self k
    have hstep : countElements self (x :: rest)
        = countElements (setEntry self x (getCount self x + 1)) rest := rfl
    rw [hstep, ih, getCount_setEntry]
    by_cases h : x = k <;> (simp [occCount, h]; try omega)

theorem getCount_addMerge (src : Entries K) : ∀ (self : Entries K) (k : K),
    getCount (src.foldl (fun acc kv => setEntry acc kv.1 (kv.2 + getCount acc kv.1)) self) k
      = getCount self k + sumCount k src := by
  induction src with
  | nil => intro self k; simp [sumCount]
  | cons kv rest ih =>
    intro self k
    rw [List.foldl_cons, ih, getCount_setEntry]
    by_cases h : kv.1 = k <;> (simp [sumCount, h]; try omega)

theorem getCount_subMerge (src : Entries K) : ∀ (self : Entries K) (k : K),
    getCount (src.foldl (fun acc kv => setEntry acc kv.1 (getCount acc kv.1 - kv.2)) self) k
      = getCount self k - sumCount k src := by
  induction src with
  | nil => intro self k; simp [sumCount]
  | cons kv rest ih =>
    intro self k
    rw [List.foldl_cons, ih, getCount_setEntry]
    by_cases h : kv.1 = k <;> (simp [sumCount, h]; try omega)

theorem getCount_subElements (xs : List K) : ∀ (self : Entries K) (k : K),
    getCount (xs.foldl (fun acc x => setEntry acc x (getCount acc x - 1)) self) k
      = getCount self k - occCount k xs := by
  induction xs with
  | nil => intro self k; simp [occCount]
  | cons x rest ih =>
    intro self k
    rw [List.foldl_cons, ih, getCount_setEntry]
    by_cases h : x = k <;> (simp [occCount, h]; try omega)

theorem lookup?_dictMerge (src : Entries K) (k : K) : ∀ acc : Entries K, nodupKeys src →
    lookup? (src.foldl (fun a kv => setEntry a kv.1 kv.2) acc) k =
      match lookup? src k with
      | some v => some v
      | none => lookup? acc k := by
  induction src with
  | nil => intro acc _; simp [lookup?]
  | cons kv rest ih =>
    intro acc hl
    obtain ⟨k1, v1⟩ := kv
    rw [nodupKeys_cons] at hl
    obtain ⟨hnd1, hndr⟩ := hl
    rw [List.foldl_cons]
    by_cases hk : k1 = k
    · subst hk
      have hrest : lookup? rest k1 = none := (lookup?_eq_none_iff _ _).mpr hnd1
      rw [ih _ hndr]
      simp [lookup?, hrest, lookup?_setEntry]
    · have hcons : lookup? ((k1, v1) :: rest) k = lookup? rest k := by
        simp [lookup?, hk]
      rw [ih _ hndr, hcons]
      have hacc : lookup? (setEntry acc k1 v1) k = lookup? acc k := by
        simp [lookup?_setEntry, hk]
      cases hrk : lookup? rest k with
      | some v => simp
      | none => simp [hacc]

theorem sumCount_eq_zero {m : Entries K} {k : K} (h : k ∉ m.map Prod.fst) :
    sumCount k m = 0 := by
  induction m with
  | nil => simp [sumCount]
  | cons kv rest ih =>
    simp only [List.map_cons, List.mem_cons] at h
    push_neg at h
    have hk : ¬ kv.1 = k := fun hEq => h.1 hEq.symm
    simp [sumCount, hk, ih h.2]

theorem sumCount_eq_getCount {m : Entries K} (hm : nodupKeys m) (k : K) :
    sumCount k m = getCount m k := by
  induction m with
  | nil => simp [sumCount, getCount, lookup?]
  | cons kv rest ih =>
    obtain ⟨k1, v1⟩ := kv
    rw [nodupKeys_cons] at hm
    by_cases hk : k1 = k
    · subst hk
      have : sumCount k1 rest = 0 := sumCount_eq_zero hm.1
      simp [sumCount, getCount, lookup?, this]
    · simp [sumCount, getCount, lookup?, hk, ih hm.2]

theorem getCount_counterUpdate {self : Entries K} {src : Source K}
    (hs : src.valid) (k : K) :
    getCount (counterUpdate self src) k = getCount self k + srcCount src k := by
  cases src with
  | iter xs => exact getCount_countElements xs self k
  | map m =>
    have hred : counterUpdate self (Source.map m) = counterUpdateMap self m := rfl
    rw [hred]
    unfold counterUpdateMap
    by_cases he : self.isEmpty = true
    · rw [if_pos he]
      rw [List.isEmpty_iff] at he
      subst he
      have hv : nodupKeys m := hs
      have hsum := sumCount_eq_getCount (m := m) hv k
      unfold getCount
      rw [lookup?_dictMerge m k [] hv]
      cases hm : lookup? m k with
      | some v => simp [srcCount, hsum, getCount, lookup?, hm]
      | none => simp [srcCount, hsum, getCount, lookup?, hm]
    · rw [if_neg he]
      exact getCount_addMerge m self k

theorem getCount_counterSubtract {self : Entries K} (src : Source K) (k : K) :
    getCount (counterSubtract self src) k = getCount self k - srcCount src k := by
  cases src with
  | iter xs => exact getCount_subElements xs self k
  | map m =>
    have hred : counterSubtract self (Source.map m) =
        m.foldl (fun acc kv => setEntry acc kv.1 (getCount acc kv.1 - kv.2)) self := rfl
    rw [hred, getCount_subMerge]
    rfl

theorem nodupKeys_setFold {β : Type} (f : Entries K → β → K) (g : Entries K → β → Int)
    (l : List β) : ∀ acc : Entries K, nodupKeys acc →
    nodupKeys (l.foldl (fun a x => setEntry a (f a x) (g a x)) acc) := by
  induction l with
  | nil => intro acc h; simpa using h
  | cons x rest ih =>
    intro acc hacc
    rw [List.foldl_cons]
    exact ih _ (nodupKeys_setEntry _ _ hacc)

theorem nodupKeys_counterUpdate {self : Entries K} (src : Source K)
    (h : nodupKeys self) : nodupKeys (counterUpdate self src) := by
  cases src with
  | iter xs => exact nodupKeys_setFold (fun _ x => x) (fun a x => getCount a x + 1) xs self h
  | map m =>
    have hred : counterUpdate self (Source.map m) = counterUpdateMap self m := rfl
    rw [hred]
    unfold counterUpdateMap
    by_cases he : self.isEmpty = true
    · rw [if_pos he]
      exact nodupKeys_setFold (fun _ kv => kv.1) (fun _ kv => kv.2) m self h
    · rw [if_neg he]
      exact nodupKeys_setFold (fun _ kv => kv.1) (fun a kv => kv.2 + getCount a kv.1) m self h

theorem nodupKeys_counterSubtract {self : Entries K} (src : Source K)
    (h : nodupKeys self) : nodupKeys (counterSubtract self src) := by
  cases src with
  | iter xs => exact nodupKeys_setFold (fun _ x => x) (fun a x => getCount a x - 1) xs self h
  | map m => exact nodupKeys_setFold (fun _ kv => kv.1) (fun a kv => getCount a kv.1 - kv.2) m self h

theorem nodupKeys_updateFold {self : Entries K} (srcs : List (Source K))
    (h : nodupKeys self) : nodupKeys (srcs.foldl counterUpdate self) := by
  induction srcs generalizing self with
  | nil => simpa using h
  | cons s rest ih =>
    rw [List.foldl_cons]
    exact ih (nodupKeys_counterUpdate s h)

theorem nodupKeys_subtractFold {self : Entries K} (srcs : List (Source K))
    (h : nodupKeys self) : nodupKeys (srcs.foldl counterSubtract self) := by
  induction srcs generalizing self with
  | nil => simpa using h
  | cons s rest ih =>
    rw [List.foldl_cons]
    exact ih (nodupKeys_counterSubtract s h)

theorem nodupKeys_counterInit (srcs : List (Source K)) : nodupKeys (counterInit srcs) :=
  nodupKeys_updateFold srcs (by simp [nodupKeys])

theorem dictMerge_append (src : Entries K) : ∀ acc : Entries K,
    (∀ kv ∈ src, lookup? acc kv.1 = none) → nodupKeys src →
    src.foldl (fun a kv => setEntry a kv.1 kv.2) acc = acc ++ src := by
  induction src with
  | nil => intro acc _ _; simp
  | cons kv rest ih =>
    intro acc hdis hnd
    rw [nodupKeys_cons] at hnd
    rw [List.foldl_cons]
    have h1 : setEntry acc kv.1 kv.2 = acc ++ [kv] :=
      setEntry_of_not_member _ (hdis kv (by simp))
    rw [h1, ih (acc ++ [kv])]
    · simp
    · intro kv2 h2
      rw [lookup?_append]
      have hacc : lookup? acc kv2.1 = none := hdis kv2 (List.mem_cons_of_mem _ h2)
      have hne : ¬ kv.1 = kv2.1 := by
        intro hEq
        exact hnd.1 (hEq ▸ List.mem_map.mpr ⟨kv2, h2, rfl⟩)
      simp [hacc, lookup?, hne]
    · exact hnd.2

theorem counterOfMap_eq_self {m : Entries K} (hm : nodupKeys m) : counterOfMap m = m := by
  unfold counterOfMap counterUpdateMap
  rw [if_pos (by simp)]
  rw [dictMerge_append m [] (fun kv _ => rfl) hm]
  simp

theorem nodupKeys_counterOfMap (m : Entries K) : nodupKeys (counterOfMap m) := by
  unfold counterOfMap counterUpdateMap
  rw [if_pos (by simp)]
  exact nodupKeys_setFold (fun _ kv => kv.1) (fun _ kv => kv.2) m [] (by simp [nodupKeys])

omit [DecidableEq K] in
theorem insertByCount_perm (x : K × Int) (l : List (K × Int)) :
    (insertByCount x l).Perm (x :: l) := by
  induction l with
  | nil => exact List.Perm.refl _
  | cons y ys ih =>
    rw [insertByCount]
    by_cases h : x.2 < y.2
    · rw [if_pos h]
      exact (ih.cons y).trans (List.Perm.swap x y ys)
    · rw [if_neg h]

omit [DecidableEq K] in
theorem sortByCountDesc_perm (l : List (K × Int)) : (sortByCountDesc l).Perm l := by
  induction l with
  | nil => exact List.Perm.refl _
  | cons x xs ih =>
    rw [sortByCountDesc]
    exact (insertByCount_perm x (sortByCountDesc xs)).trans (ih.cons x)

omit [DecidableEq K] in
theorem pairwise_insertByCount {x : K × Int} {l : List (K × Int)}
    (hl : l.Pairwise (fun a b => b.2 ≤ a.2)) :
    (insertByCount x l).Pairwise (fun a b => b.2 ≤ a.2) := by
  induction l with
  | nil => simp [insertByCount]
  | cons y ys ih =>
    rw [List.pairwise_cons] at hl
    rw [insertByCount]
    by_cases h : x.2 < y.2
    · rw [if_pos h]
      rw [List.pairwise_cons]
      refine ⟨?_, ih hl.2⟩
      intro z hz
      rcases List.mem_cons.mp ((insertByCount_perm x ys).mem_iff.mp hz) with h2 | h2
      · rw [h2]; exact le_of_lt h
      · exact hl.1 z h2
    · rw [if_neg h]
      rw [List.pairwise_cons]
      refine ⟨?_, List.pairwise_cons.mpr hl⟩
      intro z hz
      rcases List.mem_cons.mp hz with h2 | h2
      · rw [h2]; exact not_lt.mp h
      · exact le_trans (hl.1 z h2) (not_lt.mp h)

omit [DecidableEq K] in
theorem pairwise_sortByCountDesc (l : List (K × Int)) :
    (sortByCountDesc l).Pairwise (fun a b => b.2 ≤ a.2) := by
  induction l with
  | nil => simp [sortByCountDesc]
  | cons x xs ih =>
    rw [sortByCountDesc]
    exact pairwise_insertByCount ih

omit [DecidableEq K] in
theorem filter_insertByCount (x : K × Int) (l : List (K × Int)) (v : Int) :
    (insertByCount x l).filter (fun kv => kv.2 == v)
      = ((x :: l).filter (fun kv => kv.2 == v)) := by
  induction l with
  | nil => rfl
  | cons y ys ih =>
    by_cases h : x.2 < y.2
    · have hstep : insertByCount x (y :: ys) = y :: insertByCount x ys := by
        rw [insertByCount, if_pos h]
      rw [hstep]
      by_cases hx : x.2 = v
      · have hy : ¬ y.2 = v := by omega
        simp [List.filter_cons, hx, hy, ih]
      · simp [List.filter_cons, hx, ih]
    · have hstep : insertByCount x (y :: ys) = x :: y :: ys := by
        rw [insertByCount, if_neg h]
      rw [hstep]

omit [DecidableEq K] in
theorem filter_sortByCountDesc (l : List (K × Int)) (v : Int) :
    (sortByCountDesc l).filter (fun kv => kv.2 == v)
      = l.filter (fun kv => kv.2 == v) := by
  induction l with
  | nil => rfl
  | cons x xs ih =>
    rw [sortByCountDesc, filter_insertByCount]
    simp [List.filter_cons, ih]

omit [DecidableEq K] in
theorem length_sortByCountDesc (l : List (K × Int)) :
    (sortByCountDesc l).length = l.length :=
  (sortByCountDesc_perm l).length_eq

/-- The FrozenCounter value: it wraps an internal Counter built by its
constructor. -/
structure FrozenCounter (K : Type) where
  _counter : Entries K

/-- The error kinds raised by the surface under scrutiny. FrozenInstanceError
is the immutability violation (a subclass of AttributeError in the source);
AttributeError is what a failed attribute access raises. -/
inductive PyError where
  | frozenInstanceError
  | attributeError
deriving DecidableEq

/-- Runtime value returned by a method: either a FrozenCounter instance or a
plain mutable collections.Counter. -/
inductive PyValue (K : Type) where
  | frozen (c : FrozenCounter K)
  | counter (m : Entries K)

/-- An operand object: a FrozenCounter instance, or a foreign object (not an
instance of the type) that may or may not carry an attribute with the name of
the internal counter field. -/
inductive PyObj (K : Type) where
  | fc (c : FrozenCounter K)
  | foreign (attrVal : Option (Entries K))

/-- Dict equality of two counters: every entry of each is present in the
other with the same count. -/
def dictEq (a b : Entries K) : Bool :=
  (a.all fun kv => decide (lookup? b kv.1 = some kv.2)) &&
  (b.all fun kv => decide (lookup? a kv.1 = some kv.2))

/-- Reading the internal counter attribute off an arbitrary object: succeeds
on a FrozenCounter and on a foreign object carrying the attribute, raises
AttributeError otherwise. -/
def readCounterAttr : PyObj K → Except PyError (Entries K)
  | .fc c => .ok c._counter
  | .foreign (some m) => .ok m
  | .foreign none => .error PyError.attributeError

namespace FrozenCounter

/-- The constructor: build the internal Counter from the given sources. -/
def init (srcs : List (Source K)) : FrozenCounter K := ⟨counterInit srcs⟩

/-- A FrozenCounter built from one mapping, as the methods below do when they
wrap a Counter result back into the class. -/
def ofMap (m : Entries K) : FrozenCounter K := ⟨counterOfMap m⟩

/-- The update method: copies the internal counter, applies Counter.update
with every source to the copy, and returns that copy directly, so the
returned value is a plain Counter, not a FrozenCounter. The instance itself,
returned unchanged as the second component, is never mutated. -/
def update (self : FrozenCounter K) (srcs : List (Source K)) :
    PyValue K × FrozenCounter K :=
  (PyValue.counter (srcs.foldl counterUpdate self._counter), self)

/-- The subtract method: copies the internal counter, applies
Counter.subtract with every source, and wraps the copy into a new
FrozenCounter; the instance itself is unchanged. -/
def subtract (self : FrozenCounter K) (srcs : List (Source K)) :
    PyValue K × FrozenCounter K :=
  (PyValue.frozen (ofMap (srcs.foldl counterSubtract self._counter)), self)

/-- The copy method: a new instance constructed from the internal counter. -/
def copy (self : FrozenCounter K) : FrozenCounter K := ofMap self._counter

/-- Indexed deletion is wrapped by the raise_frozen_error decorator: it
always raises FrozenInstanceError and has no effect on the instance. -/
def delitem (self : FrozenCounter K) (k : K) :
    Except PyError Unit × FrozenCounter K :=
  (Except.error PyError.frozenInstanceError, self)

/-- Indexed assignment likewise always raises FrozenInstanceError with no
effect on the instance. -/
def setitem (self : FrozenCounter K) (k : K) (v : Int) :
    Except PyError Unit × FrozenCounter K :=
  (Except.error PyError.frozenInstanceError, self)

/-- Addition operator: NotImplemented (none) unless the right operand is an
instance of FrozenCounter; otherwise wraps the Counter addition result. -/
def addOp (self : FrozenCounter K) : PyObj K → Option (FrozenCounter K)
  | .fc o => some (ofMap (counterAdd self._counter o._counter))
  | .foreign _ => none

/-- Subtraction operator, same shape as addition. -/
def subOp (self : FrozenCounter K) : PyObj K → Option (FrozenCounter K)
  | .fc o => some (ofMap (counterSub self._counter o._counter))
  | .foreign _ => none

/-- Union operator, same shape as addition. -/
def orOp (self : FrozenCounter K) : PyObj K → Option (FrozenCounter K)
  | .fc o => some (ofMap (counterOr self._counter o._counter))
  | .foreign _ => none

/-- Intersection operator, same shape as addition. -/
def andOp (self : FrozenCounter K) : PyObj K → Option (FrozenCounter K)
  | .fc o => some (ofMap (counterAnd self._counter o._counter))
  | .foreign _ => none

/-- Unary plus: wraps the positive-part Counter. -/
def posOp (self : FrozenCounter K) : FrozenCounter K :=
  ofMap (counterPos self._counter)

/-- Unary minus: wraps the negated-negative-part Counter. -/
def negOp (self : FrozenCounter K) : FrozenCounter K :=
  ofMap (counterNeg self._counter)

/-- Equality reads the internal counter attribute off the other operand and
compares dicts; the attribute read may raise. -/
def eqOp (self : FrozenCounter K) (x : PyObj K) : Except PyError Bool :=
  (readCounterAttr x).map fun m => dictEq self._counter m

/-- Inequality, the negation of dict equality, with the same attribute
access behavior. -/
def neOp (self : FrozenCounter K) (x : PyObj K) : Except PyError Bool :=
  (readCounterAttr x).map fun m => !dictEq self._counter m

/-- The most_common method delegates to the internal counter. -/
def mostCommon (self : FrozenCounter K) (n : Option Int) : List (K × Int) :=
  counterMostCommon self._counter n

end FrozenCounter

/-- The hash of a FrozenCounter is a function of the frozen set of entries of
the internal counter; h abstracts the hash of that frozenset (paired with the
class object). -/
def fcHash (h : Finset (K × Int) → Int) (self : FrozenCounter K) : Int :=
  h self._counter.toFinset

theorem dictEq_eq_true_iff {a b : Entries K} :
    dictEq a b = true ↔
      (∀ kv ∈ a, lookup? b kv.1 = some kv.2) ∧
      (∀ kv ∈ b, lookup? a kv.1 = some kv.2) := by
  unfold dictEq
  simp [List.all_eq_true]

theorem dictEq_refl {c : Entries K} (h : nodupKeys c) : dictEq c c = true := by
  rw [dictEq_eq_true_iff]
  exact ⟨fun kv hkv => lookup?_of_mem h hkv, fun kv hkv => lookup?_of_mem h hkv⟩

theorem dictEq_of_lookup_eq {a b : Entries K} (ha : nodupKeys a) (hb : nodupKeys b)
    (h : ∀ k, lookup? a k = lookup? b k) : dictEq a b = true := by
  rw [dictEq_eq_true_iff]
  constructor
  · intro kv hkv
    rw [← h]
    exact lookup?_of_mem ha hkv
  · intro kv hkv
    rw [h]
    exact lookup?_of_mem hb hkv

theorem toFinset_eq_of_dictEq {a b : Entries K} (h : dictEq a b = true) :
    a.toFinset = b.toFinset := by
  rw [dictEq_eq_true_iff] at h
  ext kv
  simp only [List.mem_toFinset]
  constructor
  · intro hm
    exact mem_of_lookup? (h.1 kv hm)
  · intro hm
    exact mem_of_lookup? (h.2 kv hm)

theorem counterAdd_red (a b : Entries K) : counterAdd a b = condSetFold
    (fun kv => member a kv.1 = false ∧ 0 < kv.2) (fun kv => kv.2)
    (condSetFold (fun kv => 0 < kv.2 + getCount b kv.1)
      (fun kv => kv.2 + getCount b kv.1) [] a) b := rfl

theorem counterSub_red (a b : Entries K) : counterSub a b = condSetFold
    (fun kv => member a kv.1 = false ∧ kv.2 < 0) (fun kv => 0 - kv.2)
    (condSetFold (fun kv => 0 < kv.2 - getCount b kv.1)
      (fun kv => kv.2 - getCount b kv.1) [] a) b := rfl

theorem counterOr_red (a b : Entries K) : counterOr a b = condSetFold
    (fun kv => member a kv.1 = false ∧ 0 < kv.2) (fun kv => kv.2)
    (condSetFold (fun kv => 0 < (if kv.2 < getCount b kv.1 then getCount b kv.1 else kv.2))
      (fun kv => if kv.2 < getCount b kv.1 then getCount b kv.1 else kv.2) [] a) b := rfl

theorem counterAnd_red (a b : Entries K) : counterAnd a b = condSetFold
    (fun kv => 0 < (if kv.2 < getCount b kv.1 then kv.2 else getCount b kv.1))
    (fun kv => if kv.2 < getCount b kv.1 then kv.2 else getCount b kv.1) [] a := rfl

theorem counterAdd_lookup {a b : Entries K} (ha : nodupKeys a) (hb : nodupKeys b)
    (k : K) : lookup? (counterAdd a b) k =
      if 0 < getCount a k + getCount b k
      then some (getCount a k + getCount b k) else none := by
  have hinner := condSetFold_lookup (fun kv => 0 < kv.2 + getCount b kv.1)
      (fun kv => kv.2 + getCount b kv.1) a k [] ha
  rw [counterAdd_red, condSetFold_lookup _ _ b k _ hb]
  cases hA : lookup? a k with
  | some v =>
    have hmem : member a k = true := by simp [member, hA]
    rw [hA] at hinner
    cases hB : lookup? b k with
    | some w =>
      simp [getCount, hB, lookup?] at hinner
      simp [hmem, getCount, hA, hB, lookup?, hinner]
    | none =>
      simp [getCount, hB, lookup?] at hinner
      simp [hmem, getCount, hA, hB, lookup?, hinner]
  | none =>
    have hmem : member a k = false := by simp [member, hA]
    rw [hA] at hinner
    cases hB : lookup? b k with
    | some w =>
      simp [getCount, hB, lookup?] at hinner
      simp [hmem, getCount, hA, hB, lookup?, hinner]
    | none =>
      simp [getCount, hB, lookup?] at hinner
      simp [hmem, getCount, hA, hB, lookup?, hinner]

theorem counterSub_lookup {a b : Entries K} (ha : nodupKeys a) (hb : nodupKeys b)
    (k : K) : lookup? (counterSub a b) k =
      if 0 < getCount a k - getCount b k
      then some (getCount a k - getCount b k) else none := by
  have hinner := condSetFold_lookup (fun kv => 0 < kv.2 - getCount b kv.1)
      (fun kv => kv.2 - getCount b kv.1) a k [] ha
  rw [counterSub_red, condSetFold_lookup _ _ b k _ hb]
  cases hA : lookup? a k with
  | some v =>
    have hmem : member a k = true := by simp [member, hA]
    rw [hA] at hinner
    cases hB : lookup? b k with
    | some w =>
      simp [getCount, hB, lookup?] at hinner
      simp [hmem, getCount, hA, hB, lookup?, hinner]
    | none =>
      simp [getCount, hB, lookup?] at hinner
      simp [hmem, getCount, hA, hB, lookup?, hinner]
  | none =>
    have hmem : member a k = false := by simp [member, hA]
    rw [hA] at hinner
    cases hB : lookup? b k with
    | some w =>
      simp [getCount, hB, lookup?] at hinner
      by_cases hw : w < 0
      · have h1 : 0 < 0 - w := by omega
        simp [hmem, getCount, hA, hB, lookup?, hinner, hw, h1]
      · have h1 : ¬ 0 < 0 - w := by omega
        simp [hmem, getCount, hA, hB, lookup?, hinner, hw, h1]
    | none =>
      simp [getCount, hB, lookup?] at hinner
      simp [hmem, getCount, hA, hB, lookup?, hinner]

theorem counterOr_lookup {a b : Entries K} (ha : nodupKeys a) (hb : nodupKeys b)
    (k : K) : lookup? (counterOr a b) k =
      if 0 < max (getCount a k) (getCount b k)
      then some (max (getCount a k) (getCount b k)) else none := by
  have hinner := condSetFold_lookup
      (fun kv => 0 < (if kv.2 < getCount b kv.1 then getCount b kv.1 else kv.2))
      (fun kv => if kv.2 < getCount b kv.1 then getCount b kv.1 else kv.2) a k [] ha
  have hmax : ∀ x y : Int, (if x < y then y else x) = max x y := by
    intro x y
    rcases lt_or_ge x y with h | h
    · simp [h, max_eq_right (le_of_lt h)]
    · simp [not_lt.mpr h, max_eq_left h]
  rw [counterOr_red, condSetFold_lookup _ _ b k _ hb]
  cases hA : lookup? a k with
  | some v =>
    have hmem : member a k = true := by simp [member, hA]
    rw [hA] at hinner
    cases hB : lookup? b k with
    | some w =>
      simp [getCount, hB, lookup?, hmax] at hinner
      simp [hmem, getCount, hA, hB, lookup?, hinner, hmax]
    | none =>
      simp [getCount, hB, lookup?, hmax] at hinner
      simp [hmem, getCount, hA, hB, lookup?, hinner, hmax]
  | none =>
    have hmem : member a k = false := by simp [member, hA]
    rw [hA] at hinner
    cases hB : lookup? b k with
    | some w =>
      simp [getCount, hB, lookup?, hmax] at hinner
      by_cases hw : 0 < w
      · have h1 : max (0 : Int) w = w := max_eq_right (le_of_lt hw)
        simp [hmem, getCount, hA, hB, lookup?, hinner, hw, h1, hmax]
      · have h1 : max (0 : Int) w = 0 := max_eq_left (by omega)
        simp [hmem, getCount, hA, hB, lookup?, hinner, hw, h1, hmax]
    | none =>
      simp [getCount, hB, lookup?, hmax] at hinner
      simp [hmem, getCount, hA, hB, lookup?, hinner, hmax]

theorem counterAnd_lookup {a b : Entries K} (ha : nodupKeys a)
    (k : K) : lookup? (counterAnd a b) k =
      if 0 < min (getCount a k) (getCount b k)
      then some (min (getCount a k) (getCount b k)) else none := by
  have hmin : ∀ x y : Int, (if x < y then x else y) = min x y := by
    intro x y
    rcases lt_or_ge x y with h | h
    · simp [h, min_eq_left (le_of_lt h)]
    · simp [not_lt.mpr h, min_eq_right h]
  rw [counterAnd_red, condSetFold_lookup _ _ a k _ ha]
  cases hA : lookup? a k with
  | some v => simp [getCount, hA, lookup?, hmin]
  | none =>
    have h0 : ¬ (0 : Int) < min 0 (getCount b k) := by
      have := min_le_left (0 : Int) (getCount b k)
      omega
    simp [getCount, hA, lookup?, h0]

theorem counterAdd_pos {a b : Entries K} : ∀ kv ∈ counterAdd a b, 0 < kv.2 := by
  rw [counterAdd_red]
  apply condSetFold_forall _ _ (fun kv => 0 < kv.2)
  · apply condSetFold_forall _ _ (fun kv => 0 < kv.2)
    · intro kv h
      simp at h
    · intro kv _ hp
      exact hp
  · intro kv _ hp
    exact hp.2

theorem counterSub_pos {a b : Entries K} : ∀ kv ∈ counterSub a b, 0 < kv.2 := by
  rw [counterSub_red]
  apply condSetFold_forall _ _ (fun kv => 0 < kv.2)
  · apply condSetFold_forall _ _ (fun kv => 0 < kv.2)
    · intro kv h
      simp at h
    · intro kv _ hp
      exact hp
  · intro kv _ hp
    have := hp.2
    simp only []
    omega

theorem counterOr_pos {a b : Entries K} : ∀ kv ∈ counterOr a b, 0 < kv.2 := by
  rw [counterOr_red]
  apply condSetFold_forall _ _ (fun kv => 0 < kv.2)
  · apply condSetFold_forall _ _ (fun kv => 0 < kv.2)
    · intro kv h
      simp at h
    · intro kv _ hp
      exact hp
  · intro kv _ hp
    exact hp.2

theorem counterAnd_pos {a b : Entries K} : ∀ kv ∈ counterAnd a b, 0 < kv.2 := by
  rw [counterAnd_red]
  apply condSetFold_forall _ _ (fun kv => 0 < kv.2)
  · intro kv h
    simp at h
  · intro kv _ hp
    exact hp

theorem counterPos_pos (m : Entries K) : ∀ kv ∈ counterPos m, 0 < kv.2 := by
  unfold counterPos
  apply condSetFold_forall _ _ (fun kv => 0 < kv.2)
  · intro kv h
    simp at h
  · intro kv _ hp
    exact hp

theorem nodupKeys_counterAdd (a b : Entries K) : nodupKeys (counterAdd a b) := by
  rw [counterAdd_red]
  exact nodupKeys_condSetFold _ _ b _
    (nodupKeys_condSetFold _ _ a [] (by simp [nodupKeys]))

theorem nodupKeys_counterSub (a b : Entries K) : nodupKeys (counterSub a b) := by
  rw [counterSub_red]
  exact nodupKeys_condSetFold _ _ b _
    (nodupKeys_condSetFold _ _ a [] (by simp [nodupKeys]))

theorem nodupKeys_counterOr (a b : Entries K) : nodupKeys (counterOr a b) := by
  rw [counterOr_red]
  exact nodupKeys_condSetFold _ _ b _
    (nodupKeys_condSetFold _ _ a [] (by simp [nodupKeys]))

theorem nodupKeys_counterAnd (a b : Entries K) : nodupKeys (counterAnd a b) := by
  rw [counterAnd_red]
  exact nodupKeys_condSetFold _ _ a [] (by simp [nodupKeys])

theorem nodupKeys_counterPos (m : Entries K) : nodupKeys (counterPos m) := by
  unfold counterPos
  exact nodupKeys_condSetFold _ _ m [] (by simp [nodupKeys])

theorem nodupKeys_counterNeg (m : Entries K) : nodupKeys (counterNeg m) := by
  unfold counterNeg
  exact nodupKeys_condSetFold _ _ m [] (by simp [nodupKeys])

theorem counterOr_empty_eq_counterPos (m : Entries K) : counterOr m [] = counterPos m := by
  have hred : counterOr m [] = condSetFold
      (fun kv => 0 < (if kv.2 < getCount [] kv.1 then getCount [] kv.1 else kv.2))
      (fun kv => if kv.2 < getCount [] kv.1 then getCount [] kv.1 else kv.2) [] m := rfl
  rw [hred]
  unfold condSetFold counterPos condSetFold
  apply List.foldl_ext
  intro acc kv _
  show (if 0 < (if kv.2 < getCount [] kv.1 then getCount [] kv.1 else kv.2) then
      setEntry acc kv.1 (if kv.2 < getCount [] kv.1 then getCount [] kv.1 else kv.2)
    else acc) = if 0 < kv.2 then setEntry acc kv.1 kv.2 else acc
  have hg : getCount ([] : Entries K) kv.1 = 0 := rfl
  rw [hg]
  by_cases h : kv.2 < 0
  · rw [if_pos h, if_neg (lt_irrefl 0), if_neg (by omega : ¬ (0 : Int) < kv.2)]
  · rw [if_neg h]

theorem counterSub_empty_eq_counterNeg (m : Entries K) :
    counterSub [] m = counterNeg m := by
  have hred : counterSub [] m = condSetFold
      (fun kv => member ([] : Entries K) kv.1 = false ∧ kv.2 < 0)
      (fun kv => 0 - kv.2) [] m := rfl
  rw [hred]
  unfold condSetFold counterNeg condSetFold
  apply List.foldl_ext
  intro acc kv _
  show (if member ([] : Entries K) kv.1 = false ∧ kv.2 < 0 then
      setEntry acc kv.1 (0 - kv.2) else acc)
    = if kv.2 < 0 then setEntry acc kv.1 (0 - kv.2) else acc
  have hm : member ([] : Entries K) kv.1 = false := rfl
  by_cases h : kv.2 < 0
  · rw [if_pos ⟨hm, h⟩, if_pos h]
  · rw [if_neg (fun hc => h hc.2), if_neg h]

theorem condSetFold_append_of_fresh (p : K × Int → Prop) [DecidablePred p]
    (g : K × Int → Int) (l : Entries K) : ∀ acc : Entries K, nodupKeys l →
    (∀ kv ∈ l, p kv ∧ g kv = kv.2) →
    (∀ kv ∈ l, lookup? acc kv.1 = none) →
    condSetFold p g acc l = acc ++ l := by
  induction l with
  | nil =>
    intro acc _ _ _
    simp [condSetFold_nil]
  | cons kv rest ih =>
    intro acc hnd hpg hfresh
    rw [nodupKeys_cons] at hnd
    rw [condSetFold_cons, if_pos (hpg kv (by simp)).1]
    have hset : setEntry acc kv.1 (g kv) = acc ++ [kv] := by
      rw [(hpg kv (by simp)).2]
      exact setEntry_of_not_member _ (hfresh kv (by simp))
    rw [hset, ih (acc ++ [kv]) hnd.2]
    · simp
    · intro kv2 h2
      exact hpg kv2 (List.mem_cons_of_mem _ h2)
    · intro kv2 h2
      rw [lookup?_append]
      have hacc : lookup? acc kv2.1 = none := hfresh kv2 (List.mem_cons_of_mem _ h2)
      have hne : ¬ kv.1 = kv2.1 := fun hEq =>
        hnd.1 (hEq ▸ List.mem_map.mpr ⟨kv2, h2, rfl⟩)
      simp [hacc, lookup?, hne]

theorem counterPos_of_all_pos {l : Entries K} (hnd : nodupKeys l)
    (hpos : ∀ kv ∈ l, 0 < kv.2) : counterPos l = l := by
  unfold counterPos
  rw [condSetFold_append_of_fresh _ _ l [] hnd
    (fun kv h => ⟨hpos kv h, rfl⟩) (fun kv _ => rfl)]
  simp

theorem getCount_updateFold (srcs : List (Source K)) : ∀ (self : Entries K) (k : K),
    (∀ s ∈ srcs, s.valid) →
    getCount (srcs.foldl counterUpdate self) k
      = getCount self k + (srcs.map (fun s => srcCount s k)).sum := by
  induction srcs with
  | nil =>
    intro self k _
    simp
  | cons s rest ih =>
    intro self k hv
    rw [List.foldl_cons, ih _ k (fun s2 h2 => hv s2 (List.mem_cons_of_mem _ h2)),
      getCount_counterUpdate (hv s (by simp)) k]
    simp
    omega

theorem getCount_subtractFold (srcs : List (Source K)) : ∀ (self : Entries K) (k : K),
    getCount (srcs.foldl counterSubtract self) k
      = getCount self k - (srcs.map (fun s => srcCount s k)).sum := by
  induction srcs with
  | nil =>
    intro self k
    simp
  | cons s rest ih =>
    intro self k
    rw [List.foldl_cons, ih _ k, getCount_counterSubtract s k]
    simp
    omega

/-- The update method does leave the instance unchanged and does implement
additive merge over all sources; only the type of its return value deviates
from its documentation (see the claim C1 theorem below). -/
theorem update_counts (c : FrozenCounter K) (srcs : List (Source K))
    (hv : ∀ s ∈ srcs, s.valid) :
    ∃ m : Entries K, c.update srcs = (PyValue.counter m, c)
      ∧ ∀ k, getCount m k
          = getCount c._counter k + (srcs.map (fun s => srcCount s k)).sum := by
  refine ⟨srcs.foldl counterUpdate c._counter, rfl, ?_⟩
  intro k
  exact getCount_updateFold srcs c._counter k hv

/-- Claim C1: update is claimed to return a new instance of the immutable
multiset type with the summed counts. The counts and the non-mutation of the
receiver hold, but the returned value is the plain mutable Counter, not a
FrozenCounter: at the instance with count 2 for key 0, updated with the
mapping sending key 1 to 1, the call returns PyValue.counter (a bare
collections.Counter) rather than PyValue.frozen, contradicting the method's
docstring and return annotation. -/
theorem C1_update_returns_plain_counter :
    FrozenCounter.update (FrozenCounter.init [Source.map [((0 : Nat), (2 : Int))]])
        [Source.map [(1, 1)]]
      = (PyValue.counter [((0 : Nat), (2 : Int)), (1, 1)],
         FrozenCounter.init [Source.map [((0 : Nat), (2 : Int))]]) := rfl

/-- Claim C3: subtract returns a new FrozenCounter whose count for each key
is the receiver's count minus the counts implied by the sources, with zero
and negative results kept, and the receiver itself unchanged. -/
theorem C3_subtract_new_instance_counts (c : FrozenCounter K)
    (srcs : List (Source K)) (hc : nodupKeys c._counter) :
    ∃ r : FrozenCounter K, c.subtract srcs = (PyValue.frozen r, c)
      ∧ ∀ k, getCount r._counter k
          = getCount c._counter k - (srcs.map (fun s => srcCount s k)).sum := by
  refine ⟨FrozenCounter.ofMap (srcs.foldl counterSubtract c._counter), rfl, ?_⟩
  intro k
  have hnd : nodupKeys (srcs.foldl counterSubtract c._counter) :=
    nodupKeys_subtractFold srcs hc
  show getCount (counterOfMap (srcs.foldl counterSubtract c._counter)) k = _
  rw [counterOfMap_eq_self hnd]
  exact getCount_subtractFold srcs c._counter k

/-- Claim C3 witness: the spec example, an instance mapping key 1 to count 2,
subtracting the mapping with counts 1 for key 1 and 1 for key 2, yields
counts 1 for key 1 and minus 1 for key 2, no clamping. -/
theorem C3_subtract_witness :
    nodupKeys ([((1 : Nat), (2 : Int))] : Entries Nat)
    ∧ (∃ r : FrozenCounter Nat,
        (FrozenCounter.mk [((1 : Nat), (2 : Int))]).subtract [Source.map [(1, 1), (2, 1)]]
          = (PyValue.frozen r, FrozenCounter.mk [((1 : Nat), (2 : Int))])
        ∧ ∀ k, getCount r._counter k
            = getCount ((FrozenCounter.mk [((1 : Nat), (2 : Int))])._counter) k
              - (([Source.map [(1, 1), (2, 1)]].map (fun s => srcCount s k)).sum))
    ∧ (FrozenCounter.mk [((1 : Nat), (2 : Int))]).subtract [Source.map [(1, 1), (2, 1)]]
        = (PyValue.frozen (FrozenCounter.mk [(1, 1), (2, -1)]),
           FrozenCounter.mk [((1 : Nat), (2 : Int))]) :=
  ⟨by decide,
   C3_subtract_new_instance_counts (FrozenCounter.mk [((1 : Nat), (2 : Int))])
     [Source.map [(1, 1), (2, 1)]] (by decide),
   rfl⟩

omit [DecidableEq K] in
/-- Claim C4: indexed assignment and indexed deletion always raise
FrozenInstanceError, for any key and value, and return the instance itself
unchanged (no partial effect). -/
theorem C4_setitem_delitem_always_raise (c : FrozenCounter K) (k : K) (v : Int) :
    c.setitem k v = (Except.error PyError.frozenInstanceError, c)
    ∧ c.delitem k = (Except.error PyError.frozenInstanceError, c) :=
  ⟨rfl, rfl⟩

/-- Claim C5: each of the four binary operators returns the NotImplemented
signal (none), rather than raising, whenever the right operand is not a
FrozenCounter instance, whether or not that operand carries a counter-like
attribute. -/
theorem C5_binop_foreign_not_implemented (a : FrozenCounter K)
    (attr : Option (Entries K)) :
    a.addOp (PyObj.foreign attr) = none
    ∧ a.subOp (PyObj.foreign attr) = none
    ∧ a.orOp (PyObj.foreign attr) = none
    ∧ a.andOp (PyObj.foreign attr) = none :=
  ⟨rfl, rfl, rfl, rfl⟩

/-- Claim C10: comparing a FrozenCounter with an object that is not an
instance of the type and lacks the internal counter attribute raises
AttributeError, for both the equality and the inequality operator, instead
of returning a boolean or deferring to the other operand. -/
theorem C10_eq_foreign_attribute_error (c : FrozenCounter K) :
    c.eqOp (PyObj.foreign none) = Except.error PyError.attributeError
    ∧ c.neOp (PyObj.foreign none) = Except.error PyError.attributeError :=
  ⟨rfl, rfl⟩

/-- Claim C2: on two FrozenCounter operands the four binary operators build
a new FrozenCounter around the corresponding Counter operation; per key the
result is the sum, difference, maximum or minimum of the two counts (absent
keys counting 0), present exactly when that value is strictly positive; and
every count stored in any of the four results is strictly positive. -/
theorem C2_binop_pointwise_counts (a b : FrozenCounter K)
    (ha : nodupKeys a._counter) (hb : nodupKeys b._counter) :
    (a.addOp (PyObj.fc b) = some ⟨counterAdd a._counter b._counter⟩
      ∧ a.subOp (PyObj.fc b) = some ⟨counterSub a._counter b._counter⟩
      ∧ a.orOp (PyObj.fc b) = some ⟨counterOr a._counter b._counter⟩
      ∧ a.andOp (PyObj.fc b) = some ⟨counterAnd a._counter b._counter⟩)
    ∧ (∀ k, lookup? (counterAdd a._counter b._counter) k =
        if 0 < getCount a._counter k + getCount b._counter k
        then some (getCount a._counter k + getCount b._counter k) else none)
    ∧ (∀ k, lookup? (counterSub a._counter b._counter) k =
        if 0 < getCount a._counter k - getCount b._counter k
        then some (getCount a._counter k - getCount b._counter k) else none)
    ∧ (∀ k, lookup? (counterOr a._counter b._counter) k =
        if 0 < max (getCount a._counter k) (getCount b._counter k)
        then some (max (getCount a._counter k) (getCount b._counter k)) else none)
    ∧ (∀ k, lookup? (counterAnd a._counter b._counter) k =
        if 0 < min (getCount a._counter k) (getCount b._counter k)
        then some (min (getCount a._counter k) (getCount b._counter k)) else none)
    ∧ (∀ kv ∈ counterAdd a._counter b._counter, 0 < kv.2)
    ∧ (∀ kv ∈ counterSub a._counter b._counter, 0 < kv.2)
    ∧ (∀ kv ∈ counterOr a._counter b._counter, 0 < kv.2)
    ∧ (∀ kv ∈ counterAnd a._counter b._counter, 0 < kv.2) := by
  refine ⟨⟨?_, ?_, ?_, ?_⟩,
    fun k => counterAdd_lookup ha hb k, fun k => counterSub_lookup ha hb k,
    fun k => counterOr_lookup ha hb k, fun k => counterAnd_lookup ha k,
    counterAdd_pos, counterSub_pos, counterOr_pos, counterAnd_pos⟩
  · show some (FrozenCounter.ofMap (counterAdd a._counter b._counter)) = _
    unfold FrozenCounter.ofMap
    rw [counterOfMap_eq_self (nodupKeys_counterAdd _ _)]
  · show some (FrozenCounter.ofMap (counterSub a._counter b._counter)) = _
    unfold FrozenCounter.ofMap
    rw [counterOfMap_eq_self (nodupKeys_counterSub _ _)]
  · show some (FrozenCounter.ofMap (counterOr a._counter b._counter)) = _
    unfold FrozenCounter.ofMap
    rw [counterOfMap_eq_self (nodupKeys_counterOr _ _)]
  · show some (FrozenCounter.ofMap (counterAnd a._counter b._counter)) = _
    unfold FrozenCounter.ofMap
    rw [counterOfMap_eq_self (nodupKeys_counterAnd _ _)]

/-- Claim C2 witness: the operand with counts 2 for key 0 and minus 1 for
key 1, against the operand with counts 3 for key 1 and minus 2 for key 2,
satisfies the hypotheses and the full conclusion. -/
theorem C2_binop_witness :
    nodupKeys ((FrozenCounter.mk [((0 : Nat), (2 : Int)), (1, -1)])._counter)
    ∧ nodupKeys ((FrozenCounter.mk [((1 : Nat), (3 : Int)), (2, -2)])._counter)
    ∧ ((FrozenCounter.mk [((0 : Nat), (2 : Int)), (1, -1)]).addOp
          (PyObj.fc (FrozenCounter.mk [(1, 3), (2, -2)]))
        = some ⟨counterAdd [(0, 2), (1, -1)] [(1, 3), (2, -2)]⟩
      ∧ (FrozenCounter.mk [((0 : Nat), (2 : Int)), (1, -1)]).subOp
          (PyObj.fc (FrozenCounter.mk [(1, 3), (2, -2)]))
        = some ⟨counterSub [(0, 2), (1, -1)] [(1, 3), (2, -2)]⟩
      ∧ (FrozenCounter.mk [((0 : Nat), (2 : Int)), (1, -1)]).orOp
          (PyObj.fc (FrozenCounter.mk [(1, 3), (2, -2)]))
        = some ⟨counterOr [(0, 2), (1, -1)] [(1, 3), (2, -2)]⟩
      ∧ (FrozenCounter.mk [((0 : Nat), (2 : Int)), (1, -1)]).andOp
          (PyObj.fc (FrozenCounter.mk [(1, 3), (2, -2)]))
        = some ⟨counterAnd [(0, 2), (1, -1)] [(1, 3), (2, -2)]⟩)
    ∧ (∀ k, lookup? (counterAdd [((0 : Nat), (2 : Int)), (1, -1)] [(1, 3), (2, -2)]) k =
        if 0 < getCount [((0 : Nat), (2 : Int)), (1, -1)] k + getCount [(1, 3), (2, -2)] k
        then some (getCount [((0 : Nat), (2 : Int)), (1, -1)] k + getCount [(1, 3), (2, -2)] k)
        else none)
    ∧ (∀ k, lookup? (counterSub [((0 : Nat), (2 : Int)), (1, -1)] [(1, 3), (2, -2)]) k =
        if 0 < getCount [((0 : Nat), (2 : Int)), (1, -1)] k - getCount [(1, 3), (2, -2)] k
        then some (getCount [((0 : Nat), (2 : Int)), (1, -1)] k - getCount [(1, 3), (2, -2)] k)
        else none)
    ∧ (∀ k, lookup? (counterOr [((0 : Nat), (2 : Int)), (1, -1)] [(1, 3), (2, -2)]) k =
        if 0 < max (getCount [((0 : Nat), (2 : Int)), (1, -1)] k) (getCount [(1, 3), (2, -2)] k)
        then some (max (getCount [((0 : Nat), (2 : Int)), (1, -1)] k) (getCount [(1, 3), (2, -2)] k))
        else none)
    ∧ (∀ k, lookup? (counterAnd [((0 : Nat), (2 : Int)), (1, -1)] [(1, 3), (2, -2)]) k =
        if 0 < min (getCount [((0 : Nat), (2 : Int)), (1, -1)] k) (getCount [(1, 3), (2, -2)] k)
        then some (min (getCount [((0 : Nat), (2 : Int)), (1, -1)] k) (getCount [(1, 3), (2, -2)] k))
        else none)
    ∧ (∀ kv ∈ counterAdd [((0 : Nat), (2 : Int)), (1, -1)] [(1, 3), (2, -2)], 0 < kv.2)
    ∧ (∀ kv ∈ counterSub [((0 : Nat), (2 : Int)), (1, -1)] [(1, 3), (2, -2)], 0 < kv.2)
    ∧ (∀ kv ∈ counterOr [((0 : Nat), (2 : Int)), (1, -1)] [(1, 3), (2, -2)], 0 < kv.2)
    ∧ (∀ kv ∈ counterAnd [((0 : Nat), (2 : Int)), (1, -1)] [(1, 3), (2, -2)], 0 < kv.2) :=
  ⟨by decide, by decide,
   C2_binop_pointwise_counts (FrozenCounter.mk [((0 : Nat), (2 : Int)), (1, -1)])
     (FrozenCounter.mk [((1 : Nat), (3 : Int)), (2, -2)]) (by decide) (by decide)⟩

/-- Claim C6: unary plus equals union with an empty FrozenCounter (the
operator returns exactly the same instance content), it keeps each strictly
positive count unchanged and drops every zero or negative entry, and it is
idempotent. -/
theorem C6_upos_union_empty_idempotent (a : FrozenCounter K)
    (ha : nodupKeys a._counter) :
    a.orOp (PyObj.fc (FrozenCounter.init [])) = some a.posOp
    ∧ (∀ k, lookup? a.posOp._counter k =
        match lookup? a._counter k with
        | some v => if 0 < v then some v else none
        | none => none)
    ∧ a.posOp.posOp = a.posOp := by
  have hpos : a.posOp = ⟨counterPos a._counter⟩ := by
    unfold FrozenCounter.posOp FrozenCounter.ofMap
    rw [counterOfMap_eq_self (nodupKeys_counterPos _)]
  refine ⟨?_, ?_, ?_⟩
  · show some (FrozenCounter.ofMap (counterOr a._counter [])) = some a.posOp
    rw [counterOr_empty_eq_counterPos, hpos]
    unfold FrozenCounter.ofMap
    rw [counterOfMap_eq_self (nodupKeys_counterPos _)]
  · intro k
    rw [hpos]
    have h := condSetFold_lookup (fun kv => 0 < kv.2) (fun kv => kv.2)
      a._counter k [] ha
    show lookup? (counterPos a._counter) k = _
    unfold counterPos
    simpa [lookup?] using h
  · rw [hpos]
    show FrozenCounter.ofMap (counterPos (counterPos a._counter)) = _
    rw [counterPos_of_all_pos (nodupKeys_counterPos _) (counterPos_pos _)]
    unfold FrozenCounter.ofMap
    rw [counterOfMap_eq_self (nodupKeys_counterPos _)]

/-- Claim C6 witness: the instance with counts 2 for key 0, minus 1 for key
1 and 0 for key 2 satisfies the hypothesis and the conclusion. -/
theorem C6_upos_witness :
    nodupKeys ((FrozenCounter.mk [((0 : Nat), (2 : Int)), (1, -1), (2, 0)])._counter)
    ∧ ((FrozenCounter.mk [((0 : Nat), (2 : Int)), (1, -1), (2, 0)]).orOp
        (PyObj.fc (FrozenCounter.init []))
        = some (FrozenCounter.mk [((0 : Nat), (2 : Int)), (1, -1), (2, 0)]).posOp
      ∧ (∀ k, lookup? (FrozenCounter.mk [((0 : Nat), (2 : Int)), (1, -1), (2, 0)]).posOp._counter k =
          match lookup? (FrozenCounter.mk [((0 : Nat), (2 : Int)), (1, -1), (2, 0)])._counter k with
          | some v => if 0 < v then some v else none
          | none => none)
      ∧ (FrozenCounter.mk [((0 : Nat), (2 : Int)), (1, -1), (2, 0)]).posOp.posOp
          = (FrozenCounter.mk [((0 : Nat), (2 : Int)), (1, -1), (2, 0)]).posOp) :=
  ⟨by decide,
   C6_upos_union_empty_idempotent
     (FrozenCounter.mk [((0 : Nat), (2 : Int)), (1, -1), (2, 0)]) (by decide)⟩

/-- Claim C7: unary minus equals subtracting the instance from an empty
FrozenCounter; the result holds exactly the keys whose count was strictly
negative, with the sign flipped to positive, and no key with a zero or
positive count. -/
theorem C7_uneg_empty_sub (a : FrozenCounter K) (ha : nodupKeys a._counter) :
    (FrozenCounter.init []).subOp (PyObj.fc a) = some a.negOp
    ∧ (∀ k, lookup? a.negOp._counter k =
        match lookup? a._counter k with
        | some v => if v < 0 then some (0 - v) else none
        | none => none) := by
  have hneg : a.negOp = ⟨counterNeg a._counter⟩ := by
    unfold FrozenCounter.negOp FrozenCounter.ofMap
    rw [counterOfMap_eq_self (nodupKeys_counterNeg _)]
  constructor
  · show some (FrozenCounter.ofMap (counterSub [] a._counter)) = some a.negOp
    rw [counterSub_empty_eq_counterNeg, hneg]
    unfold FrozenCounter.ofMap
    rw [counterOfMap_eq_self (nodupKeys_counterNeg _)]
  · intro k
    rw [hneg]
    have h := condSetFold_lookup (fun kv => kv.2 < 0) (fun kv => 0 - kv.2)
      a._counter k [] ha
    show lookup? (counterNeg a._counter) k = _
    unfold counterNeg
    simpa [lookup?] using h

/-- Claim C7 witness: the instance with counts 2 for key 0, minus 1 for key
1 and 0 for key 2 satisfies the hypothesis and the conclusion. -/
theorem C7_uneg_witness :
    nodupKeys ((FrozenCounter.mk [((0 : Nat), (2 : Int)), (1, -1), (2, 0)])._counter)
    ∧ ((FrozenCounter.init []).subOp
        (PyObj.fc (FrozenCounter.mk [((0 : Nat), (2 : Int)), (1, -1), (2, 0)]))
        = some (FrozenCounter.mk [((0 : Nat), (2 : Int)), (1, -1), (2, 0)]).negOp
      ∧ (∀ k, lookup? (FrozenCounter.mk [((0 : Nat), (2 : Int)), (1, -1), (2, 0)]).negOp._counter k =
          match lookup? (FrozenCounter.mk [((0 : Nat), (2 : Int)), (1, -1), (2, 0)])._counter k with
          | some v => if v < 0 then some (0 - v) else none
          | none => none)) :=
  ⟨by decide,
   C7_uneg_empty_sub
     (FrozenCounter.mk [((0 : Nat), (2 : Int)), (1, -1), (2, 0)]) (by decide)⟩

omit [DecidableEq K] in
/-- Claim C8: most_common with n omitted is a permutation of the entries,
sorted by weakly descending count, stable in the sense that the entries of
any fixed count keep their original relative order; n at most 0 yields the
empty sequence; positive n yields exactly the first n entries of the full
sort; and n at least the number of keys yields the full sorted sequence. -/
theorem C8_most_common_sorted_stable_take (c : FrozenCounter K) :
    (c.mostCommon none).Perm c._counter
    ∧ (c.mostCommon none).Pairwise (fun x y => y.2 ≤ x.2)
    ∧ (∀ v : Int, (c.mostCommon none).filter (fun kv => kv.2 == v)
        = c._counter.filter (fun kv => kv.2 == v))
    ∧ (∀ n : Int, n ≤ 0 → c.mostCommon (some n) = [])
    ∧ (∀ n : Int, 0 < n → c.mostCommon (some n) = (c.mostCommon none).take n.toNat)
    ∧ (∀ n : Int, (c._counter.length : Int) ≤ n →
        c.mostCommon (some n) = c.mostCommon none) := by
  have hnone : c.mostCommon none = sortByCountDesc c._counter := rfl
  refine ⟨?_, ?_, ?_, ?_, ?_, ?_⟩
  · rw [hnone]
    exact sortByCountDesc_perm _
  · rw [hnone]
    exact pairwise_sortByCountDesc _
  · intro v
    rw [hnone]
    exact filter_sortByCountDesc _ v
  · intro n hn
    show (if n ≤ 0 then [] else (sortByCountDesc c._counter).take n.toNat) = []
    rw [if_pos hn]
  · intro n hn
    show (if n ≤ 0 then [] else (sortByCountDesc c._counter).take n.toNat) = _
    rw [if_neg (by omega), hnone]
  · intro n hn
    by_cases h0 : n ≤ 0
    · have hlen : c._counter.length = 0 := by omega
      have hnil : c._counter = [] := List.length_eq_zero.mp hlen
      show (if n ≤ 0 then [] else (sortByCountDesc c._counter).take n.toNat) = _
      rw [if_pos h0, hnone, hnil]
      rfl
    · show (if n ≤ 0 then [] else (sortByCountDesc c._counter).take n.toNat) = _
      rw [if_neg h0, hnone]
      apply List.take_of_length_le
      rw [length_sortByCountDesc]
      omega

/-- Claim C9: an instance equals itself; its copy compares equal to it and
has the same hash for every hash function of the frozen entry set; and any
two instances that compare equal have equal hashes. The copy is a fresh
instance built by the constructor from the internal counter, so its content
characterization here is the whole observable story. -/
theorem C9_eq_copy_hash (c : FrozenCounter K) (hc : nodupKeys c._counter) :
    c.eqOp (PyObj.fc c) = Except.ok true
    ∧ c.copy.eqOp (PyObj.fc c) = Except.ok true
    ∧ (∀ h : Finset (K × Int) → Int, fcHash h c.copy = fcHash h c)
    ∧ (∀ a b : FrozenCounter K, a.eqOp (PyObj.fc b) = Except.ok true →
        ∀ h : Finset (K × Int) → Int, fcHash h a = fcHash h b) := by
  have hcopy : c.copy = ⟨c._counter⟩ := by
    unfold FrozenCounter.copy FrozenCounter.ofMap
    rw [counterOfMap_eq_self hc]
  refine ⟨?_, ?_, ?_, ?_⟩
  · show Except.ok (dictEq c._counter c._counter) = Except.ok true
    rw [dictEq_refl hc]
  · rw [hcopy]
    show Except.ok (dictEq c._counter c._counter) = Except.ok true
    rw [dictEq_refl hc]
  · intro h
    rw [hcopy]
  · intro a b hab h
    have hd : dictEq a._counter b._counter = true := by
      have h2 : (Except.ok (dictEq a._counter b._counter) : Except PyError Bool)
          = Except.ok true := hab
      simpa using h2
    unfold fcHash
    rw [toFinset_eq_of_dictEq hd]

/-- Claim C9 witness: the instance with counts 2 for key 0 and minus 3 for
key 1 satisfies the hypothesis and the conclusion. -/
theorem C9_eq_copy_hash_witness :
    nodupKeys ((FrozenCounter.mk [((0 : Nat), (2 : Int)), (1, -3)])._counter)
    ∧ ((FrozenCounter.mk [((0 : Nat), (2 : Int)), (1, -3)]).eqOp
        (PyObj.fc (FrozenCounter.mk [((0 : Nat), (2 : Int)), (1, -3)])) = Except.ok true
      ∧ (FrozenCounter.mk [((0 : Nat), (2 : Int)), (1, -3)]).copy.eqOp
        (PyObj.fc (FrozenCounter.mk [((0 : Nat), (2 : Int)), (1, -3)])) = Except.ok true
      ∧ (∀ h : Finset (Nat × Int) → Int,
          fcHash h (FrozenCounter.mk [((0 : Nat), (2 : Int)), (1, -3)]).copy
            = fcHash h (FrozenCounter.mk [((0 : Nat), (2 : Int)), (1, -3)]))
      ∧ (∀ a b : FrozenCounter Nat, a.eqOp (PyObj.fc b) = Except.ok true →
          ∀ h : Finset (Nat × Int) → Int, fcHash h a = fcHash h b)) :=
  ⟨by decide,
   C9_eq_copy_hash (FrozenCounter.mk [((0 : Nat), (2 : Int)), (1, -3)]) (by decide)⟩

end FrozenCounterSpec
